import Mathlib

/-!
# Verification of the EventBusService message hub

Shallow embedding of `event-bus/src/eventBus.ts`: the connection registry
(a JS `Map` from socket id to service record), the registration and
disconnect handlers installed by `setupEventRouting`, and the routing
decision of `routeMessage`.  Machine-level transport (socket.io) is
abstracted as an opaque push effect; deliveries are recorded as the list
of `(socketId, message)` pairs the hub emits, in iteration order.
-/

namespace EventBus

/-- The `EventMessage` interface of `eventBus.ts`.  The TypeScript
`source`/`target` role literals and the free-form `type` tag are strings;
`target` is optional; `data` is an opaque payload, kept as a string the
hub never inspects; `timestamp` is a point in time, kept as a `Nat`. -/
structure EventMessage where
  type : String
  source : String
  target : Option String
  data : String
  messageId : String
  timestamp : Nat
  threadId : Option String
deriving DecidableEq, Repr

/-- The record value of the `connectedServices` map: `{ socket, serviceType }`.
The socket handle is identified by its socket id (the map key), so only
`serviceType` is carried here. -/
structure ServiceRecord where
  serviceType : String
deriving DecidableEq, Repr

/-- The `connectedServices` map, modelled as its entry list in insertion
order (JS `Map` iterates entries in insertion order). -/
abbrev Registry : Type := List (String × ServiceRecord)

/-- The socket ids present in the registry. -/
def registryKeys (reg : Registry) : List String :=
  reg.map Prod.fst

/-- `Map.get` / membership lookup: the record of the first entry whose key
matches, if any. -/
def lookupService (reg : Registry) (socketId : String) : Option ServiceRecord :=
  (reg.find? (fun p => p.1 == socketId)).map Prod.snd

/-- JS `Map.set`: overwrite in place when the key is present (position
kept), append otherwise. -/
def mapSet (reg : Registry) (k : String) (v : ServiceRecord) : Registry :=
  if reg.any (fun p => p.1 == k) then
    reg.map (fun p => if p.1 == k then (k, v) else p)
  else
    reg ++ [(k, v)]

/-- JS `Map.delete`: drop every entry with the given key (a `Map` holds at
most one). -/
def mapDelete (reg : Registry) (k : String) : Registry :=
  reg.filter (fun p => p.1 != k)

/-- The `register_service` handler: `connectedServices.set(socket.id,
{ socket, serviceType: data.serviceType })`.  `serviceName` is only
logged, never stored. -/
def registerService (reg : Registry) (socketId : String) (serviceType : String) : Registry :=
  mapSet reg socketId ⟨serviceType⟩

/-- The `disconnect` handler: `connectedServices.delete(socket.id)`. -/
def unregisterService (reg : Registry) (socketId : String) : Registry :=
  mapDelete reg socketId

/-- JS truthiness of the optional `message.target` string, as tested by
`else if (message.target)`: `undefined` and the empty string are falsy. -/
def jsTruthy : Option String → Bool
  | none => false
  | some s => s != ""

/-- The per-branch warnings `routeMessage` logs: zero matches for a
targeted send, and a message with no target. -/
inductive RouteWarning where
  | noTargetServices (target : String)
  | noTargetSpecified
deriving DecidableEq, Repr

/-- What one `routeMessage` call does: the `event_received` emissions in
iteration order, and the warning it logs, if any. -/
structure RouteResult where
  deliveries : List (String × EventMessage)
  warning : Option RouteWarning
deriving DecidableEq, Repr

/-- The routing function `routeMessage(message, senderId)` of `eventBus.ts`, as the function
from the registry snapshot to the delivery list and warning.
Branches in source order: `message.target === 'broadcast'` first, then
`else if (message.target)` (JS truthiness), else the no-target warning. -/
def routeMessage (reg : Registry) (message : EventMessage) (senderId : String) : RouteResult :=
  if message.target = some "broadcast" then
    { deliveries :=
        (reg.filter (fun p => p.1 != senderId)).map (fun p => (p.1, message)),
      warning := none }
  else if jsTruthy message.target then
    match message.target with
    | some t =>
      let delivered :=
        (reg.filter (fun p => p.2.serviceType == t && p.1 != senderId)).map
          (fun p => (p.1, message))
      { deliveries := delivered,
        warning := if delivered.length = 0 then some (.noTargetServices t) else none }
    | none => { deliveries := [], warning := some .noTargetSpecified }
  else
    { deliveries := [], warning := some .noTargetSpecified }

/-- The socket ids `routeMessage` delivers to. -/
def routeRecipients (reg : Registry) (message : EventMessage) (senderId : String) : List String :=
  (routeMessage reg message senderId).deliveries.map Prod.fst

/-- The body of the delivery loops, with the push effect made explicit and
fallible.  The source has no `try`/`catch` around
`service.socket.emit('event_received', message)`, so a throwing push
aborts the `forEach` iteration and the exception escapes: the result is
the list of pushes attempted (in order, including the failing one) and
the escaping error, if any. -/
def emitLoop (entries : List (String × ServiceRecord))
    (cond : String → ServiceRecord → Bool)
    (push : String → Except String Unit) : List String × Option String :=
  match entries with
  | [] => ([], none)
  | (cid, r) :: rest =>
    if cond cid r then
      match push cid with
      | .ok _ =>
        let res := emitLoop rest cond push
        (cid :: res.1, res.2)
      | .error e => ([cid], some e)
    else
      emitLoop rest cond push

/-- The routing function with the fallible push effect: same branch structure as
`routeMessage`, recording attempted pushes and the first escaping error. -/
def routeMessagePush (reg : Registry) (message : EventMessage) (senderId : String)
    (push : String → Except String Unit) : List String × Option String :=
  if message.target = some "broadcast" then
    emitLoop reg (fun cid _ => cid != senderId) push
  else if jsTruthy message.target then
    match message.target with
    | some t => emitLoop reg (fun cid r => r.serviceType == t && cid != senderId) push
    | none => ([], none)
  else
    ([], none)

/-- The events the transport feeds into the hub's handlers. -/
inductive BusEvent where
  | registerEvent (socketId serviceType serviceName : String)
  | publishEvent (socketId : String) (message : EventMessage)
  | disconnect (socketId : String)
deriving DecidableEq, Repr

/-- One step of the hub: the handler `setupEventRouting` installs for the
event, returning the next registry and the deliveries emitted. -/
def stepBus (reg : Registry) (e : BusEvent) : Registry × List (String × EventMessage) :=
  match e with
  | .registerEvent sid st _ => (registerService reg sid st, [])
  | .publishEvent sid msg => (reg, (routeMessage reg msg sid).deliveries)
  | .disconnect sid => (unregisterService reg sid, [])

/-! Concrete sample values, used by the witness theorems. -/

/-- A sample broadcast message. -/
def sampleMessageB : EventMessage :=
  ⟨"status_update", "react-app", some "broadcast", "d", "m1", 0, none⟩

/-- A sample message targeted at the express-server role. -/
def sampleMessageT : EventMessage :=
  ⟨"status_update", "react-app", some "express-server", "d", "m2", 1, none⟩

/-- A sample message with no target. -/
def sampleMessageN : EventMessage :=
  ⟨"status_update", "react-app", none, "d", "m3", 2, none⟩

/-- A sample registry: three services, two sharing the express-server role. -/
def sampleRegistry : Registry :=
  [("a", ⟨"react-app"⟩), ("b", ⟨"express-server"⟩), ("c", ⟨"express-server"⟩)]

/-- A push effect that throws on socket id b and succeeds elsewhere. -/
def failOnB : String → Except String Unit :=
  fun cid => if cid = "b" then Except.error "emit failed" else Except.ok ()

/-! ## Theorems -/

/-- C3: a message whose target field is absent is delivered to zero
connections, with the no-target warning logged; the result does not
depend on the registry (no recipient lookup), and the push-effect version
attempts no push and raises no error. -/
theorem no_target_message_not_routed
    (reg reg2 : Registry) (msg : EventMessage) (senderId : String)
    (push : String → Except String Unit)
    (ht : msg.target = none) :
    (routeMessage reg msg senderId).deliveries = []
    ∧ (routeMessage reg msg senderId).warning = some RouteWarning.noTargetSpecified
    ∧ routeMessage reg msg senderId = routeMessage reg2 msg senderId
    ∧ routeMessagePush reg msg senderId push = ([], none) := by
  simp [routeMessage, routeMessagePush, ht, jsTruthy]

theorem no_target_message_not_routed_witness :
    (routeMessage sampleRegistry sampleMessageN "a").deliveries = []
    ∧ (routeMessage sampleRegistry sampleMessageN "a").warning
        = some RouteWarning.noTargetSpecified
    ∧ routeMessage sampleRegistry sampleMessageN "a" = routeMessage [] sampleMessageN "a"
    ∧ routeMessagePush sampleRegistry sampleMessageN "a" failOnB = ([], none) :=
  no_target_message_not_routed sampleRegistry [] sampleMessageN "a" failOnB rfl

/-- C4: in every branch, the delivery set of `routeMessage` excludes the
sender's own connection id. -/
theorem sender_never_receives_own_message
    (reg : Registry) (msg : EventMessage) (senderId : String) :
    (routeRecipients reg msg senderId).all (fun cid => cid != senderId) = true := by
  unfold routeRecipients routeMessage
  split
  · simp [List.all_eq_true, List.mem_filter]
  · split
    · split
      · simp +contextual [List.all_eq_true, List.mem_filter, Bool.and_eq_true]
      · simp
    · simp

/-- C8: every delivery carries the message with all seven fields exactly
as the sender sent them; the hub rewrites nothing before forwarding. -/
theorem delivered_message_unmodified
    (reg : Registry) (msg : EventMessage) (senderId : String)
    (d : String × EventMessage)
    (hd : d ∈ (routeMessage reg msg senderId).deliveries) :
    d.2.type = msg.type ∧ d.2.source = msg.source ∧ d.2.target = msg.target
    ∧ d.2.data = msg.data ∧ d.2.messageId = msg.messageId
    ∧ d.2.timestamp = msg.timestamp ∧ d.2.threadId = msg.threadId := by
  have h2 : d.2 = msg := by
    unfold routeMessage at hd
    split at hd
    · simp [List.mem_map] at hd
      obtain ⟨p, _, hp⟩ := hd
      simp [← hp]
    · split at hd
      · split at hd
        · simp [List.mem_map] at hd
          obtain ⟨p, _, hp⟩ := hd
          simp [← hp]
        · simp at hd
      · simp at hd
  simp [h2]

theorem delivered_message_unmodified_witness :
    ("b", sampleMessageB) ∈ (routeMessage sampleRegistry sampleMessageB "a").deliveries
    ∧ ((("b", sampleMessageB) : String × EventMessage).2.type = sampleMessageB.type
      ∧ (("b", sampleMessageB) : String × EventMessage).2.source = sampleMessageB.source
      ∧ (("b", sampleMessageB) : String × EventMessage).2.target = sampleMessageB.target
      ∧ (("b", sampleMessageB) : String × EventMessage).2.data = sampleMessageB.data
      ∧ (("b", sampleMessageB) : String × EventMessage).2.messageId = sampleMessageB.messageId
      ∧ (("b", sampleMessageB) : String × EventMessage).2.timestamp = sampleMessageB.timestamp
      ∧ (("b", sampleMessageB) : String × EventMessage).2.threadId = sampleMessageB.threadId) :=
  ⟨by decide,
   delivered_message_unmodified sampleRegistry sampleMessageB "a" ("b", sampleMessageB)
     (by decide)⟩

/-- C9: processing a publish event leaves the registry unchanged, and
re-processing the same publish event against the resulting (identical)
registry yields the identical delivery list. -/
theorem routing_deterministic_and_stateless
    (reg : Registry) (msg : EventMessage) (senderId : String) :
    (stepBus reg (BusEvent.publishEvent senderId msg)).1 = reg
    ∧ (stepBus (stepBus reg (BusEvent.publishEvent senderId msg)).1
        (BusEvent.publishEvent senderId msg)).2
      = (stepBus reg (BusEvent.publishEvent senderId msg)).2 := by
  exact ⟨rfl, rfl⟩

/-! ### Registry lemmas -/

theorem mapSet_cons_ne (hd : String × ServiceRecord) (tl : Registry)
    (k : String) (v : ServiceRecord) (h : (hd.1 == k) = false) :
    mapSet (hd :: tl) k v = hd :: mapSet tl k v := by
  unfold mapSet
  simp only [List.any_cons, h, Bool.false_or, List.map_cons, if_neg (by simp [h] : ¬ (hd.1 == k) = true)]
  split
  · rfl
  · rfl

theorem lookup_mapSet_self (reg : Registry) (k : String) (v : ServiceRecord) :
    lookupService (mapSet reg k v) k = some v := by
  induction reg with
  | nil => simp [mapSet, lookupService]
  | cons hd tl ih =>
    by_cases h : (hd.1 == k) = true
    · unfold mapSet
      simp only [List.any_cons, h, Bool.true_or, if_pos, List.map_cons, if_pos h]
      simp [lookupService]
    · rw [mapSet_cons_ne hd tl k v (by simpa using h)]
      unfold lookupService at ih ⊢
      simp only [List.find?_cons, h]
      exact ih

theorem lookup_map_overwrite_other (tl : Registry) (k k2 : String) (v : ServiceRecord)
    (h : k2 ≠ k) :
    lookupService (tl.map (fun p => if p.1 == k then (k, v) else p)) k2
      = lookupService tl k2 := by
  induction tl with
  | nil => rfl
  | cons hd tl2 ih =>
    by_cases hh : (hd.1 == k) = true
    · have hk : hd.1 = k := by simpa using hh
      unfold lookupService at ih ⊢
      simp only [List.map_cons, if_pos hh, List.find?_cons]
      have h1 : ((k, v).1 == k2) = false := by simp [Ne.symm h]
      have h2 : (hd.1 == k2) = false := by simp [hk, Ne.symm h]
      simp only [h1, h2]
      exact ih
    · unfold lookupService at ih ⊢
      simp only [List.map_cons, if_neg hh, List.find?_cons]
      split
      · rfl
      · exact ih

theorem lookup_mapSet_other (reg : Registry) (k k2 : String) (v : ServiceRecord)
    (h : k2 ≠ k) :
    lookupService (mapSet reg k v) k2 = lookupService reg k2 := by
  induction reg with
  | nil =>
    simp [mapSet, lookupService, List.find?_cons, Ne.symm h]
  | cons hd tl ih =>
    by_cases hh : (hd.1 == k) = true
    · unfold mapSet
      simp only [List.any_cons, hh, Bool.true_or, if_pos, List.map_cons, if_pos hh]
      have h1 : ((k, v).1 == k2) = false := by simp [Ne.symm h]
      have h2 : (hd.1 == k2) = false := by
        have hk : hd.1 = k := by simpa using hh
        simp [hk, Ne.symm h]
      unfold lookupService
      simp only [List.find?_cons, h1, h2]
      exact lookup_map_overwrite_other tl k k2 v h
    · rw [mapSet_cons_ne hd tl k v (by simpa using hh)]
      unfold lookupService at ih ⊢
      simp only [List.find?_cons]
      split
      · rfl
      · exact ih

/-- C6: registration inserts when the connection id is absent and
overwrites when it is present — afterwards the id maps to the new record —
and every other connection id's registry entry is untouched. -/
theorem register_inserts_or_overwrites_frame
    (reg : Registry) (cid serviceType : String) :
    lookupService (registerService reg cid serviceType) cid = some ⟨serviceType⟩
    ∧ ∀ k : String, k ≠ cid →
        lookupService (registerService reg cid serviceType) k = lookupService reg k := by
  refine ⟨lookup_mapSet_self reg cid ⟨serviceType⟩, ?_⟩
  intro k hk
  exact lookup_mapSet_other reg cid k ⟨serviceType⟩ hk

theorem register_inserts_or_overwrites_frame_witness :
    lookupService (registerService sampleRegistry "a" "saga-middleware") "a"
      = some ⟨"saga-middleware"⟩
    ∧ lookupService (registerService sampleRegistry "a" "saga-middleware") "b"
      = lookupService sampleRegistry "b" :=
  ⟨(register_inserts_or_overwrites_frame sampleRegistry "a" "saga-middleware").1,
   (register_inserts_or_overwrites_frame sampleRegistry "a" "saga-middleware").2 "b"
     (by decide)⟩

theorem find?_key_filter_out_other (l : Registry) (cid k : String) (hk : k ≠ cid) :
    (List.filter (fun p => p.1 != cid) l).find? (fun p => p.1 == k)
      = l.find? (fun p => p.1 == k) := by
  induction l with
  | nil => rfl
  | cons hd tl ih =>
    by_cases hh : hd.1 = cid
    · rw [List.filter_cons_of_neg (by simp [hh]), ih,
        List.find?_cons_of_neg tl (by simp [hh, Ne.symm hk])]
    · rw [List.filter_cons_of_pos (by simp [hh])]
      by_cases hk2 : (hd.1 == k) = true
      · rw [List.find?_cons_of_pos (p := fun x : String × ServiceRecord => x.1 == k) _ hk2,
          List.find?_cons_of_pos (p := fun x : String × ServiceRecord => x.1 == k) _ hk2]
      · rw [List.find?_cons_of_neg (p := fun x : String × ServiceRecord => x.1 == k) _ hk2,
          List.find?_cons_of_neg (p := fun x : String × ServiceRecord => x.1 == k) _ hk2, ih]

/-- C7: unregistering removes the record when present, is a no-op on the
whole registry when the connection id is absent, and never touches any
other connection id's entry. -/
theorem unregister_removes_noop_frame
    (reg : Registry) (cid : String) :
    lookupService (unregisterService reg cid) cid = none
    ∧ (∀ k : String, k ≠ cid →
        lookupService (unregisterService reg cid) k = lookupService reg k)
    ∧ (lookupService reg cid = none → unregisterService reg cid = reg) := by
  unfold unregisterService mapDelete
  refine ⟨?_, ?_, ?_⟩
  · unfold lookupService
    rw [Option.map_eq_none', List.find?_eq_none]
    intro p hp
    have := (List.mem_filter.mp hp).2
    simpa using this
  · intro k hk
    unfold lookupService
    rw [find?_key_filter_out_other reg cid k hk]
  · intro hnone
    unfold lookupService at hnone
    rw [Option.map_eq_none', List.find?_eq_none] at hnone
    rw [List.filter_eq_self]
    intro p hp
    have := hnone p hp
    simpa using this

theorem unregister_removes_noop_frame_witness :
    lookupService (unregisterService sampleRegistry "b") "b" = none
    ∧ lookupService (unregisterService sampleRegistry "b") "c"
      = lookupService sampleRegistry "c"
    ∧ unregisterService [] "b" = [] :=
  ⟨(unregister_removes_noop_frame sampleRegistry "b").1,
   (unregister_removes_noop_frame sampleRegistry "b").2.1 "c" (by decide),
   (unregister_removes_noop_frame [] "b").2.2 rfl⟩

/-! ### Registry key uniqueness (the map invariant behind C2's hypothesis) -/

theorem registryKeys_register_nodup (reg : Registry) (cid serviceType : String)
    (hnd : (registryKeys reg).Nodup) :
    (registryKeys (registerService reg cid serviceType)).Nodup := by
  unfold registryKeys at hnd
  unfold registerService mapSet registryKeys
  split
  case isTrue h =>
    have hkeys : (reg.map (fun p => if p.1 == cid then (cid, (⟨serviceType⟩ : ServiceRecord)) else p)).map Prod.fst
        = reg.map Prod.fst := by
      rw [List.map_map]
      apply List.map_congr_left
      intro p hp
      by_cases hpk : (p.1 == cid) = true
      · simp only [Function.comp_apply, if_pos hpk]
        exact (beq_iff_eq.mp hpk).symm
      · simp only [Function.comp_apply, if_neg hpk]
    rw [hkeys]
    exact hnd
  case isFalse h =>
    rw [List.map_append]
    rw [List.nodup_append]
    refine ⟨hnd, List.nodup_singleton cid, ?_⟩
    intro a ha hb
    have ha2 : a = cid := by simpa using hb
    obtain ⟨p, hp, hfst⟩ := List.mem_map.mp ha
    have hfalse : reg.any (fun p => p.1 == cid) = false := by
      cases hx : reg.any (fun p => p.1 == cid)
      · rfl
      · exact absurd hx h
    exact List.any_eq_false.mp hfalse p hp (by simp [hfst, ha2])

theorem registryKeys_unregister_nodup (reg : Registry) (cid : String)
    (hnd : (registryKeys reg).Nodup) :
    (registryKeys (unregisterService reg cid)).Nodup := by
  unfold registryKeys at hnd
  unfold unregisterService mapDelete registryKeys
  exact List.Nodup.sublist (List.Sublist.map Prod.fst (List.filter_sublist reg)) hnd

/-! ### Routing lemmas -/

theorem deliveries_map_fst (l : Registry) (f : String × ServiceRecord → Bool)
    (m : EventMessage) :
    ((l.filter f).map (fun p => (p.1, m))).map Prod.fst = (l.filter f).map Prod.fst := by
  rw [List.map_map]
  rfl

theorem mem_map_fst_filter (l : Registry) (f : String × ServiceRecord → Bool) (cid : String) :
    cid ∈ (l.filter f).map Prod.fst
      ↔ ∃ r : ServiceRecord, (cid, r) ∈ l ∧ f (cid, r) = true := by
  constructor
  · intro h
    obtain ⟨p, hp, rfl⟩ := List.mem_map.mp h
    obtain ⟨hmem, hf⟩ := List.mem_filter.mp hp
    exact ⟨p.2, hmem, hf⟩
  · rintro ⟨r, hmem, hf⟩
    exact List.mem_map.mpr ⟨(cid, r), List.mem_filter.mpr ⟨hmem, hf⟩, rfl⟩

theorem routeRecipients_broadcast (reg : Registry) (msg : EventMessage) (senderId : String)
    (ht : msg.target = some "broadcast") :
    routeRecipients reg msg senderId
      = (reg.filter (fun p => p.1 != senderId)).map Prod.fst := by
  unfold routeRecipients routeMessage
  rw [if_pos ht]
  exact deliveries_map_fst reg _ msg

theorem routeRecipients_targeted (reg : Registry) (msg : EventMessage) (senderId t : String)
    (ht : msg.target = some t) (hb : t ≠ "broadcast") (he : t ≠ "") :
    routeRecipients reg msg senderId
      = (reg.filter (fun p => p.2.serviceType == t && p.1 != senderId)).map Prod.fst := by
  unfold routeRecipients routeMessage
  rw [if_neg (by simp [ht, hb]), if_pos (by simp [ht, jsTruthy, he]), ht]
  exact deliveries_map_fst reg _ msg

/-- C1: a message targeted at a specific role is delivered to exactly the
registered connections of that role other than the sender, and to no
other connection. -/
theorem targeted_delivery_exact
    (reg : Registry) (msg : EventMessage) (senderId t : String)
    (ht : msg.target = some t) (hb : t ≠ "broadcast") (he : t ≠ "") :
    ∀ cid : String,
      cid ∈ routeRecipients reg msg senderId ↔
        ((∃ r : ServiceRecord, (cid, r) ∈ reg ∧ r.serviceType = t) ∧ cid ≠ senderId) := by
  intro cid
  rw [routeRecipients_targeted reg msg senderId t ht hb he, mem_map_fst_filter]
  constructor
  · rintro ⟨r, hm, hf⟩
    rw [Bool.and_eq_true] at hf
    exact ⟨⟨r, hm, by simpa using hf.1⟩, by simpa using hf.2⟩
  · rintro ⟨⟨r, hm, hrole⟩, hne⟩
    exact ⟨r, hm, by simp [hrole, hne]⟩

theorem targeted_delivery_exact_witness :
    "b" ∈ routeRecipients sampleRegistry sampleMessageT "a" ↔
      ((∃ r : ServiceRecord, ("b", r) ∈ sampleRegistry ∧ r.serviceType = "express-server")
        ∧ "b" ≠ "a") :=
  targeted_delivery_exact sampleRegistry sampleMessageT "a" "express-server" rfl
    (by decide) (by decide) "b"

/-- C2: a broadcast message is delivered to every registered connection
other than the sender, regardless of role, and (keys being unique in the
map) at most once each, and to no other connection. -/
theorem broadcast_delivery_exact
    (reg : Registry) (msg : EventMessage) (senderId : String)
    (ht : msg.target = some "broadcast")
    (hnd : (registryKeys reg).Nodup) :
    (∀ cid : String, cid ∈ routeRecipients reg msg senderId ↔
        (cid ∈ registryKeys reg ∧ cid ≠ senderId))
    ∧ (routeRecipients reg msg senderId).Nodup := by
  have hre := routeRecipients_broadcast reg msg senderId ht
  constructor
  · intro cid
    rw [hre, mem_map_fst_filter]
    constructor
    · rintro ⟨r, hm, hf⟩
      exact ⟨List.mem_map.mpr ⟨(cid, r), hm, rfl⟩, by simpa using hf⟩
    · rintro ⟨hk, hne⟩
      obtain ⟨p, hp, rfl⟩ := List.mem_map.mp hk
      exact ⟨p.2, hp, by simpa using hne⟩
  · rw [hre]
    exact List.Nodup.sublist
      (List.Sublist.map Prod.fst (List.filter_sublist reg)) hnd

theorem broadcast_delivery_exact_witness :
    ("b" ∈ routeRecipients sampleRegistry sampleMessageB "a" ↔
      ("b" ∈ registryKeys sampleRegistry ∧ "b" ≠ "a"))
    ∧ (routeRecipients sampleRegistry sampleMessageB "a").Nodup :=
  ⟨(broadcast_delivery_exact sampleRegistry sampleMessageB "a" rfl (by decide)).1 "b",
   (broadcast_delivery_exact sampleRegistry sampleMessageB "a" rfl (by decide)).2⟩

/-- C10: an unregistered sender's message is routed normally — the
sender-exclusion check never fires, so a broadcast reaches every
registered connection and a targeted message reaches every registered
connection of the target role. -/
theorem unregistered_sender_routes_normally
    (reg : Registry) (msg : EventMessage) (senderId : String)
    (hs : senderId ∉ registryKeys reg) :
    (msg.target = some "broadcast" →
      routeRecipients reg msg senderId = registryKeys reg)
    ∧ (∀ t : String, msg.target = some t → t ≠ "broadcast" → t ≠ "" →
        routeRecipients reg msg senderId
          = (reg.filter (fun p => p.2.serviceType == t)).map Prod.fst) := by
  have hall : ∀ p ∈ reg, (p.1 != senderId) = true := by
    intro p hp
    rw [bne_iff_ne]
    intro hcontra
    exact hs (hcontra ▸ List.mem_map.mpr ⟨p, hp, rfl⟩)
  constructor
  · intro ht
    rw [routeRecipients_broadcast reg msg senderId ht,
      List.filter_eq_self.mpr hall]
    rfl
  · intro t ht hb he
    rw [routeRecipients_targeted reg msg senderId t ht hb he]
    congr 1
    apply List.filter_congr
    intro p hp
    rw [hall p hp, Bool.and_true]

theorem unregistered_sender_routes_normally_witness :
    (routeRecipients sampleRegistry sampleMessageB "z" = registryKeys sampleRegistry)
    ∧ (routeRecipients sampleRegistry sampleMessageT "z"
        = (sampleRegistry.filter
            (fun p => p.2.serviceType == "express-server")).map Prod.fst) :=
  ⟨(unregistered_sender_routes_normally sampleRegistry sampleMessageB "z" (by decide)).1 rfl,
   (unregistered_sender_routes_normally sampleRegistry sampleMessageT "z" (by decide)).2
     "express-server" rfl (by decide) (by decide)⟩

/-! ### Push-failure semantics -/

theorem emitLoop_initialSegment (cond : String → ServiceRecord → Bool)
    (push : String → Except String Unit) (entries : List (String × ServiceRecord)) :
    (emitLoop entries cond push).1
      <+: (entries.filter (fun p => cond p.1 p.2)).map Prod.fst := by
  induction entries with
  | nil => simp [emitLoop]
  | cons hd tl ih =>
    obtain ⟨cid, r⟩ := hd
    by_cases hc : cond cid r
    · rw [List.filter_cons_of_pos (by simpa using hc)]
      unfold emitLoop
      rw [if_pos hc]
      cases hp : push cid with
      | ok u =>
        rw [List.map_cons]
        exact (List.prefix_cons_inj cid).mpr ih
      | error e =>
        rw [List.map_cons]
        exact ⟨_, rfl⟩
    · rw [List.filter_cons_of_neg (by simpa using hc)]
      unfold emitLoop
      rw [if_neg hc]
      exact ih

theorem emitLoop_ok_all (cond : String → ServiceRecord → Bool)
    (push : String → Except String Unit) (entries : List (String × ServiceRecord)) :
    (emitLoop entries cond push).2 = none →
    (emitLoop entries cond push).1
      = (entries.filter (fun p => cond p.1 p.2)).map Prod.fst := by
  induction entries with
  | nil => intro _; simp [emitLoop]
  | cons hd tl ih =>
    intro h
    obtain ⟨cid, r⟩ := hd
    unfold emitLoop at h ⊢
    by_cases hc : cond cid r
    · rw [if_pos hc] at h ⊢
      cases hp : push cid with
      | ok u =>
        rw [hp] at h
        rw [List.filter_cons_of_pos (by simpa using hc), List.map_cons]
        exact congrArg (cid :: ·) (ih h)
      | error e =>
        rw [hp] at h
        have h2 : Option.some e = none := h
        cases h2
    · rw [if_neg hc] at h ⊢
      rw [List.filter_cons_of_neg (by simpa using hc)]
      exact ih h

theorem emitLoop_error_spec (cond : String → ServiceRecord → Bool)
    (push : String → Except String Unit) (e : String)
    (entries : List (String × ServiceRecord)) :
    (emitLoop entries cond push).2 = some e →
    ∃ pre cid, (emitLoop entries cond push).1 = pre ++ [cid]
      ∧ push cid = Except.error e
      ∧ ∀ c ∈ pre, push c = Except.ok () := by
  induction entries with
  | nil => intro h; simp [emitLoop] at h
  | cons hd tl ih =>
    intro h
    obtain ⟨cid, r⟩ := hd
    unfold emitLoop at h ⊢
    by_cases hc : cond cid r
    · rw [if_pos hc] at h ⊢
      cases hp : push cid with
      | ok u =>
        rw [hp] at h
        obtain ⟨pre, c2, h1, h2, h3⟩ := ih h
        refine ⟨cid :: pre, c2, ?_, h2, ?_⟩
        · show cid :: (emitLoop tl cond push).1 = (cid :: pre) ++ [c2]
          rw [h1]
          rfl
        · intro c hcmem
          rcases List.mem_cons.mp hcmem with hceq | hcm
          · rw [hceq]
            exact hp
          · exact h3 c hcm
      | error e2 =>
        rw [hp] at h
        have hinj : Option.some e2 = some e := h
        have he2 : e2 = e := Option.some.inj hinj
        exact ⟨[], cid, rfl, he2 ▸ hp, by simp⟩
    · rw [if_neg hc] at h ⊢
      exact ih h

/-- C5 (amended): the delivery loop has no per-recipient catch — the pushes
attempted are a prefix of the recipient list, all recipients are reached
only when every push succeeds, and a push failure ends the attempts at the
failing recipient (all earlier pushes succeeded) with the error escaping
the routing call, to be absorbed only by the process-level
uncaughtException handler. -/
theorem push_failure_aborts_routing
    (reg : Registry) (msg : EventMessage) (senderId : String)
    (push : String → Except String Unit) :
    (routeMessagePush reg msg senderId push).1 <+: routeRecipients reg msg senderId
    ∧ ((routeMessagePush reg msg senderId push).2 = none →
        (routeMessagePush reg msg senderId push).1 = routeRecipients reg msg senderId)
    ∧ (∀ e : String, (routeMessagePush reg msg senderId push).2 = some e →
        ∃ pre cid, (routeMessagePush reg msg senderId push).1 = pre ++ [cid]
          ∧ push cid = Except.error e
          ∧ ∀ c ∈ pre, push c = Except.ok ()) := by
  by_cases hb : msg.target = some "broadcast"
  · have h1 : routeMessagePush reg msg senderId push
        = emitLoop reg (fun cid _ => cid != senderId) push := by
      unfold routeMessagePush
      rw [if_pos hb]
    have h2 := routeRecipients_broadcast reg msg senderId hb
    rw [h1, h2]
    exact ⟨emitLoop_initialSegment _ push reg, emitLoop_ok_all _ push reg,
      fun e => emitLoop_error_spec _ push e reg⟩
  · cases ht : msg.target with
    | none =>
      have h1 : routeMessagePush reg msg senderId push = ([], none) := by
        unfold routeMessagePush
        rw [if_neg hb]
        simp [ht, jsTruthy]
      have h2 : routeRecipients reg msg senderId = [] := by
        unfold routeRecipients routeMessage
        rw [if_neg hb]
        simp [ht, jsTruthy]
      rw [h1, h2]
      exact ⟨List.nil_prefix, fun _ => rfl, fun e he => absurd he (by simp)⟩
    | some t =>
      by_cases he : t = ""
      · have h1 : routeMessagePush reg msg senderId push = ([], none) := by
          unfold routeMessagePush
          rw [if_neg hb]
          simp [ht, he, jsTruthy]
        have h2 : routeRecipients reg msg senderId = [] := by
          unfold routeRecipients routeMessage
          rw [if_neg hb]
          simp [ht, he, jsTruthy]
        rw [h1, h2]
        exact ⟨List.nil_prefix, fun _ => rfl, fun e2 he2 => absurd he2 (by simp)⟩
      · have hbt : t ≠ "broadcast" := fun hcontra => hb (by rw [ht, hcontra])
        have h1 : routeMessagePush reg msg senderId push
            = emitLoop reg (fun cid r => r.serviceType == t && cid != senderId) push := by
          unfold routeMessagePush
          rw [if_neg hb, if_pos (by simp [ht, jsTruthy, he]), ht]
        have h2 := routeRecipients_targeted reg msg senderId t ht hbt he
        rw [h1, h2]
        exact ⟨emitLoop_initialSegment _ push reg, emitLoop_ok_all _ push reg,
          fun e => emitLoop_error_spec _ push e reg⟩

theorem push_failure_aborts_routing_witness :
    ∃ pre cid,
      (routeMessagePush sampleRegistry sampleMessageB "a" failOnB).1 = pre ++ [cid]
      ∧ failOnB cid = Except.error "emit failed"
      ∧ ∀ c ∈ pre, failOnB c = Except.ok () :=
  (push_failure_aborts_routing sampleRegistry sampleMessageB "a" failOnB).2.2
    "emit failed" (by decide)

/-- C5 as stated is false on the code: with a push that throws on the
first recipient, the other registered recipient is never attempted and
the routing call itself ends with the escaping error. -/
theorem push_failure_not_contained
    : "c" ∈ routeRecipients sampleRegistry sampleMessageB "a"
    ∧ routeMessagePush sampleRegistry sampleMessageB "a" failOnB
        = (["b"], some "emit failed")
    ∧ "c" ∉ (routeMessagePush sampleRegistry sampleMessageB "a" failOnB).1
    ∧ (routeMessagePush sampleRegistry sampleMessageB "a" failOnB).2 ≠ none := by
  decide

end EventBus
